import Mathlib

/-!
# Verification of the AI-Document-Assistant ingestion/retrieval core

Shallow embedding of the RAG pipeline from `src/backend/`:
`document_processor.py` (type detection, extraction, chunking config),
`embedding.py` (embedding generation, vector-store writes and queries),
`model.py` (answer generation) and `main.py` (ingestion orchestration).

External collaborators (the langchain recursive text splitter, the
sentence-transformer encoder, the chromadb collection) are not part of the
repository source; they are modelled from the specification, and each such
definition carries a doc comment starting with `Modelled from the spec:`.
All other definitions are translated from the Python source.
-/

namespace DocAssistant

/-! ## Chunker

`AdvancedDocumentProcessor` (document_processor.py lines 36-41) configures a
`RecursiveCharacterTextSplitter` with `chunk_size=1000`, `chunk_overlap=200`,
`length_function=len`.  The splitting algorithm itself lives in the langchain
dependency, so it is modelled from spec section 4.3: recursive splitting on a
separator priority, pieces that fit are kept, oversized pieces are split with
the next separator, and the resulting pieces are greedily merged into chunks
of at most `chunk_size` characters with an `overlap`-character carry. -/

/-- `beginsWith s t` decides whether `s` is an initial segment of `t`. -/
def beginsWith : List Char → List Char → Bool
  | [], _ => true
  | _ :: _, [] => false
  | a :: as, b :: bs => a == b && beginsWith as bs

/-- Scan for the first occurrence of the separator `sep`; return the piece
before it and, when the separator occurs, the remainder after it. -/
def breakOnSep (sep : List Char) : List Char → List Char × Option (List Char)
  | [] => ([], none)
  | c :: rest =>
    if !sep.isEmpty && beginsWith sep (c :: rest) then
      ([], some ((c :: rest).drop sep.length))
    else
      ((c :: (breakOnSep sep rest).1), (breakOnSep sep rest).2)

/-- Re-attach a separator in front of the first piece of a list of pieces
(the splitter keeps separators attached to the following piece). -/
def attachSep (sep : List Char) : List (List Char) → List (List Char)
  | [] => []
  | q :: qs => (sep ++ q) :: qs

/-- Split on every occurrence of `sep`, keeping the separator attached to the
following piece; `fuel` bounds the recursion depth. -/
def splitKeepFuel (sep : List Char) : Nat → List Char → List (List Char)
  | 0, t => [t]
  | fuel + 1, t =>
    match breakOnSep sep t with
    | (p, none) => [p]
    | (p, some r) => p :: attachSep sep (splitKeepFuel sep fuel r)

/-- Split on every occurrence of `sep`, separator kept with the next piece. -/
def splitKeep (sep t : List Char) : List (List Char) :=
  splitKeepFuel sep t.length t

/-- Character-level fallback split: slabs of at most `size` characters,
advancing by `step` characters each time. -/
def hardSplitFuel (size step : Nat) : Nat → List Char → List (List Char)
  | _, [] => []
  | 0, t => [t]
  | fuel + 1, t =>
    if t.length ≤ size then [t]
    else t.take size :: hardSplitFuel size step fuel (t.drop step)

/-- Recursively produce pieces of at most `chunkSize` characters, trying each
separator in order and falling back to a character-level split. -/
def goodPiecesFuel (chunkSize step : Nat) : Nat → List (List Char) → List Char → List (List Char)
  | 0, _, t => [t]
  | _ + 1, [], t => hardSplitFuel chunkSize step t.length t
  | fuel + 1, s :: rest, t =>
    ((splitKeep s t).filter (fun p => !p.isEmpty)).flatMap
      (fun p => if p.length ≤ chunkSize then [p] else goodPiecesFuel chunkSize step fuel rest p)

/-- Separator priority of spec section 4.3: paragraph, line, sentence, word;
the character level is the `hardSplitFuel` fallback. -/
def separators : List (List Char) := [['\n', '\n'], ['\n'], ['.', ' '], [' ']]

/-- Greedily merge pieces into chunks of at most `chunkSize` characters; when a
chunk is emitted, up to `overlap` trailing characters are carried into the next
chunk. -/
def mergeLoop (chunkSize overlap : Nat) : List (List Char) → List Char → List (List Char)
  | [], cur => if cur.isEmpty then [] else [cur]
  | p :: ps, cur =>
    if cur.length + p.length ≤ chunkSize then
      mergeLoop chunkSize overlap ps (cur ++ p)
    else if cur.isEmpty then
      p :: mergeLoop chunkSize overlap ps []
    else
      cur :: mergeLoop chunkSize overlap ps
        (if (cur.drop (cur.length - overlap)).length + p.length ≤ chunkSize then
          cur.drop (cur.length - overlap) ++ p
        else p)

/-- Modelled from the spec: section 4.3 Chunker, the recursive/fallback
separator strategy of the langchain `RecursiveCharacterTextSplitter`, which is
a dependency, not repository source.  The configuration (`chunk_size`,
`overlap`) comes from document_processor.py lines 36-41. -/
def splitChunks (chunkSize overlap : Nat) (cs : List Char) : List (List Char) :=
  mergeLoop chunkSize overlap
    (goodPiecesFuel chunkSize (chunkSize - overlap) (separators.length + 1) separators cs) []

/-- `text_splitter.split_text` as used by the extractors: chunk size 1000,
overlap 200 (document_processor.py lines 36-41). -/
def split_text (s : String) : List String :=
  (splitChunks 1000 200 s.data).map String.mk

/-! ### Chunker lemmas -/

theorem beginsWith_append {s t : List Char} (h : beginsWith s t = true) :
    s ++ t.drop s.length = t := by
  induction s generalizing t with
  | nil => simp
  | cons a as ih =>
    cases t with
    | nil => simp [beginsWith] at h
    | cons b bs =>
      simp only [beginsWith, Bool.and_eq_true, beq_iff_eq] at h
      obtain ⟨rfl, h2⟩ := h
      simpa using ih h2

theorem breakOnSep_none {sep t p : List Char}
    (h : breakOnSep sep t = (p, none)) : p = t := by
  induction t generalizing p with
  | nil => simpa [breakOnSep] using congrArg Prod.fst h
  | cons c rest ih =>
    by_cases hc : (!sep.isEmpty && beginsWith sep (c :: rest)) = true
    · simp [breakOnSep, hc] at h
    · simp only [breakOnSep, hc, Bool.false_eq_true, if_false, Prod.mk.injEq] at h
      obtain ⟨h1, h2⟩ := h
      cases hb : (breakOnSep sep rest).2 with
      | none =>
        have := @ih (breakOnSep sep rest).1 (by rw [← hb])
        simp [← h1, this]
      | some r => rw [hb] at h2; cases h2

theorem breakOnSep_some {sep t p r : List Char}
    (h : breakOnSep sep t = (p, some r)) : p ++ sep ++ r = t ∧ sep ≠ [] := by
  induction t generalizing p r with
  | nil => simp [breakOnSep] at h
  | cons c rest ih =>
    by_cases hc : (!sep.isEmpty && beginsWith sep (c :: rest)) = true
    · simp only [breakOnSep, hc, if_true, Prod.mk.injEq] at h
      obtain ⟨h1, h2⟩ := h
      subst h1
      injection h2 with h2
      subst h2
      simp only [Bool.and_eq_true, Bool.not_eq_eq_eq_not, Bool.not_true,
        List.isEmpty_eq_false] at hc
      refine ⟨?_, hc.1⟩
      simpa using beginsWith_append hc.2
    · simp only [breakOnSep, hc, Bool.false_eq_true, if_false, Prod.mk.injEq] at h
      obtain ⟨h1, h2⟩ := h
      have := @ih (breakOnSep sep rest).1 r (by
        rw [Prod.ext_iff]; exact ⟨rfl, h2⟩)
      refine ⟨?_, this.2⟩
      rw [← h1]
      simpa using congrArg (c :: ·) this.1

theorem splitKeepFuel_ne_nil (sep : List Char) (fuel : Nat) (t : List Char) :
    splitKeepFuel sep fuel t ≠ [] := by
  cases fuel with
  | zero => simp [splitKeepFuel]
  | succ n =>
    simp only [splitKeepFuel]
    rcases h : breakOnSep sep t with ⟨p, o⟩
    cases o <;> simp

theorem breakOnSep_some_length {sep t p r : List Char}
    (h : breakOnSep sep t = (p, some r)) : r.length < t.length := by
  obtain ⟨h1, h2⟩ := breakOnSep_some h
  have hlen := congrArg List.length h1
  simp only [List.length_append] at hlen
  have hs : 0 < sep.length := List.length_pos.mpr h2
  omega

theorem flatten_splitKeepFuel (sep : List Char) (fuel : Nat) (t : List Char)
    (h : t.length ≤ fuel) : (splitKeepFuel sep fuel t).flatten = t := by
  induction fuel generalizing t with
  | zero =>
    have : t = [] := List.length_eq_zero.mp (Nat.le_zero.mp h)
    simp [splitKeepFuel, this]
  | succ n ih =>
    simp only [splitKeepFuel]
    rcases hb : breakOnSep sep t with ⟨p, o⟩
    cases o with
    | none => simpa using breakOnSep_none hb
    | some r =>
      have hlt := breakOnSep_some_length hb
      have hr : r.length ≤ n := by omega
      obtain ⟨h1, _⟩ := breakOnSep_some hb
      show (p :: attachSep sep (splitKeepFuel sep n r)).flatten = t
      cases hq : splitKeepFuel sep n r with
      | nil => exact absurd hq (splitKeepFuel_ne_nil sep n r)
      | cons q qs =>
        have hfl : q ++ qs.flatten = r := by
          have := ih r hr
          rw [hq] at this
          simpa using this
        simp only [attachSep, List.flatten_cons]
        rw [← h1, ← hfl]
        simp [List.append_assoc]

theorem flatten_splitKeep (sep t : List Char) : (splitKeep sep t).flatten = t :=
  flatten_splitKeepFuel sep t.length t (Nat.le_refl _)

theorem flatten_filter_isEmpty (l : List (List Char)) :
    (l.filter (fun p => !p.isEmpty)).flatten = l.flatten := by
  induction l with
  | nil => rfl
  | cons p ps ih =>
    by_cases hp : p.isEmpty
    · have : p = [] := List.isEmpty_iff.mp hp
      simp [this, List.filter_cons, ih]
    · simp [List.filter_cons, hp, ih]

theorem length_le_of_mem_flatten {p : List Char} {l : List (List Char)}
    (h : p ∈ l) : p.length ≤ l.flatten.length := by
  rw [List.length_flatten]
  exact List.le_sum_of_mem (List.mem_map_of_mem _ h)

theorem flatMap_singleton_of_mem {α : Type} {l : List α} {f : α → List α}
    (h : ∀ p ∈ l, f p = [p]) : l.flatMap f = l := by
  induction l with
  | nil => rfl
  | cons p ps ih =>
    simp only [List.flatMap_cons, h p (List.mem_cons_self p ps)]
    rw [ih fun q hq => h q (List.mem_cons_of_mem p hq)]
    rfl

theorem mergeLoop_total (chunkSize overlap : Nat) (ps : List (List Char))
    (cur : List Char) (h : cur.length + (ps.map List.length).sum ≤ chunkSize) :
    mergeLoop chunkSize overlap ps cur =
      if (cur ++ ps.flatten).isEmpty then [] else [cur ++ ps.flatten] := by
  induction ps generalizing cur with
  | nil => simp [mergeLoop]
  | cons p ps ih =>
    have hc : cur.length + p.length ≤ chunkSize := by
      simp only [List.map_cons, List.sum_cons] at h
      omega
    have hrec : (cur ++ p).length + (ps.map List.length).sum ≤ chunkSize := by
      simp only [List.map_cons, List.sum_cons] at h
      simp only [List.length_append]
      omega
    simp only [mergeLoop, hc, if_true]
    rw [ih (cur ++ p) hrec]
    simp [List.append_assoc]

theorem splitChunks_short (cs : List Char) (hne : cs ≠ []) (hlen : cs.length ≤ 1000) :
    splitChunks 1000 200 cs = [cs] := by
  have hpieces : ∀ p ∈ (splitKeep ['\n', '\n'] cs).filter (fun p => !p.isEmpty),
      p.length ≤ 1000 := by
    intro p hp
    have hmem := List.mem_of_mem_filter hp
    have hle := length_le_of_mem_flatten hmem
    rw [flatten_splitKeep] at hle
    omega
  have hflat : ((splitKeep ['\n', '\n'] cs).filter (fun p => !p.isEmpty)).flatten = cs := by
    rw [flatten_filter_isEmpty, flatten_splitKeep]
  have hgp : goodPiecesFuel 1000 800 5 separators cs
      = (splitKeep ['\n', '\n'] cs).filter (fun p => !p.isEmpty) := by
    rw [show goodPiecesFuel 1000 800 5 separators cs
        = ((splitKeep ['\n', '\n'] cs).filter (fun p => !p.isEmpty)).flatMap
            (fun p => if p.length ≤ 1000 then [p]
              else goodPiecesFuel 1000 800 4 [['\n'], ['.', ' '], [' ']] p) from rfl]
    exact flatMap_singleton_of_mem (fun p hp => by simp [hpieces p hp])
  have hsum : ([] : List Char).length
      + (((splitKeep ['\n', '\n'] cs).filter (fun p => !p.isEmpty)).map List.length).sum
        ≤ 1000 := by
    have hs : (((splitKeep ['\n', '\n'] cs).filter (fun p => !p.isEmpty)).map
        List.length).sum = cs.length := by
      rw [← List.length_flatten, hflat]
    simp only [List.length_nil, Nat.zero_add, hs]
    exact hlen
  show mergeLoop 1000 200 (goodPiecesFuel 1000 800 5 separators cs) [] = [cs]
  rw [hgp, mergeLoop_total 1000 200 _ [] hsum, hflat]
  simp [hne]

theorem splitChunks_nil : splitChunks 1000 200 [] = [] := rfl

theorem string_mk_data (s : String) : String.mk s.data = s := rfl

theorem data_ne_nil {s : String} (h : s ≠ "") : s.data ≠ [] := by
  intro hd
  apply h
  cases s with
  | mk d => cases hd; rfl

theorem split_text_empty : split_text "" = [] := rfl

theorem split_text_short (T : String) (h1 : T ≠ "") (h2 : T.length ≤ 1000) :
    split_text T = [T] := by
  have hd : T.data ≠ [] := data_ne_nil h1
  have hl : T.data.length ≤ 1000 := h2
  show (splitChunks 1000 200 T.data).map String.mk = [T]
  rw [splitChunks_short T.data hd hl]
  simp [string_mk_data]

/-! ## Data model

Metadata mappings are finite association lists; values are strings or natural
numbers, which covers every metadata value the source constructs. -/

/-- A metadata value: the source stores strings (filename, file type) and
integers (chunk_index). -/
inductive MetaVal where
  | str (s : String)
  | nat (n : Nat)
deriving DecidableEq, Repr

/-- A metadata mapping, as a Python dict of string keys. -/
abbrev Metadata := List (String × MetaVal)

/-- A table row mapping, as produced by `table.to_dict('records')`. -/
abbrev TableRow := Metadata

/-- `DocumentType` enumeration (document_processor.py lines 15-20). -/
inductive DocumentType where
  | pdf
  | image
  | text
  | excel
deriving DecidableEq, Repr

/-- The `.value` of each `DocumentType` member (document_processor.py
lines 17-20). -/
def DocumentType.value : DocumentType → String
  | .pdf => "pdf"
  | .image => "image"
  | .text => "text"
  | .excel => "excel"

/-- Labeled errors raised by the document processor: `ValueError` from
detection and dispatch, `RuntimeError` from the per-type processors. -/
inductive ProcErr where
  | detectionFailed
  | pdfFailed
  | imageFailed
  | textFailed
  | unsupportedType
deriving DecidableEq, Repr

/-- The result dict of the per-type processors (document_processor.py
lines 107-113, 135-141, 163-167), with the keys stamped on by
`process_document` (lines 196-197).  Keys absent for a given extractor are
`none` / `[]`. -/
structure ExtractionResult where
  text : String
  chunks : List String
  tables : List (List TableRow) := []
  page_count : Option Nat := none
  imageFormat : Option String := none
  mode : Option String := none
  total_chunks : Nat
  filename : Option String := none
  file_type : Option String := none
deriving DecidableEq, Repr

/-- The observable outcomes of the external collaborators for one file:
what `magic` sniffing, `PyPDF2`, `tabula`, `PIL`+`pytesseract` and UTF-8
decoding return for it.  `none` models the library call raising. -/
structure FileModel where
  name : String
  mime : Option String
  pdfPages : Option (List String) := none
  pdfTables : Option (List (List TableRow)) := none
  imageData : Option (String × String × String) := none
  utf8Text : Option String := none
deriving DecidableEq, Repr

/-- Python `x or d` for a string `x`: the empty string is falsy. -/
def pyOrStr (s d : String) : String :=
  if s = "" then d else s

/-! ## document_processor.py -/

/-- The `type_mapping` dict lookup with default `DocumentType.TEXT`
(document_processor.py lines 66-73). -/
def type_mapping (mime : String) : DocumentType :=
  if mime = "application/pdf" then .pdf
  else if mime = "image/png" then .image
  else if mime = "image/jpeg" then .image
  else if mime = "text/plain" then .text
  else if mime = "application/vnd.openxmlformats-officedocument.spreadsheetml.sheet" then .excel
  else .text

/-- `AdvancedDocumentProcessor.detect_document_type` (document_processor.py
lines 50-76): MIME sniffing via `magic`, unknown types default to TEXT,
`ValueError` if the content cannot be read. -/
def detect_document_type (f : FileModel) : Except ProcErr DocumentType :=
  match f.mime with
  | none => .error .detectionFailed
  | some m => .ok (type_mapping m)

/-- `AdvancedDocumentProcessor.process_pdf` (document_processor.py
lines 78-116): page texts joined with newlines, chunked; table extraction is
best-effort — its failure yields an empty table list. -/
def process_pdf (f : FileModel) : Except ProcErr ExtractionResult :=
  match f.pdfPages with
  | none => .error .pdfFailed
  | some pages =>
    let full_text := String.intercalate "\n" pages
    let chunks := split_text full_text
    let processed_tables :=
      match f.pdfTables with
      | none => []
      | some ts => ts.filter (fun t => !t.isEmpty)
    .ok { text := full_text, chunks := chunks, tables := processed_tables,
          page_count := some pages.length, total_chunks := chunks.length }

/-- `AdvancedDocumentProcessor.process_image` (document_processor.py
lines 118-144): OCR text (`pytesseract.image_to_string(image) or ""`),
chunked, with the image format and color mode. -/
def process_image (f : FileModel) : Except ProcErr ExtractionResult :=
  match f.imageData with
  | none => .error .imageFailed
  | some (ocr, fmt, mode) =>
    let text := pyOrStr ocr ""
    let chunks := split_text text
    .ok { text := text, chunks := chunks, imageFormat := some fmt,
          mode := some mode, total_chunks := chunks.length }

/-- `AdvancedDocumentProcessor.process_text` (document_processor.py
lines 146-170): UTF-8 decode (fatal on failure), chunked. -/
def process_text (f : FileModel) : Except ProcErr ExtractionResult :=
  match f.utf8Text with
  | none => .error .textFailed
  | some text =>
    let chunks := split_text text
    .ok { text := text, chunks := chunks, total_chunks := chunks.length }

/-- The dispatch dict of `process_document` (document_processor.py
lines 186-190): `.get(doc_type, None)` — no entry for `EXCEL`. -/
def processorFor (doc_type : DocumentType) :
    Option (FileModel → Except ProcErr ExtractionResult) :=
  match doc_type with
  | .pdf => some process_pdf
  | .image => some process_image
  | .text => some process_text
  | .excel => none

/-- `AdvancedDocumentProcessor.process_document` (document_processor.py
lines 172-198): detect, dispatch, raise `ValueError` when no processor is
registered, then stamp filename and file type on the result. -/
def process_document (f : FileModel) : Except ProcErr ExtractionResult :=
  match detect_document_type f with
  | .error e => .error e
  | .ok doc_type =>
    match processorFor doc_type with
    | none => .error .unsupportedType
    | some proc =>
      match proc f with
      | .error e => .error e
      | .ok r => .ok { r with filename := some f.name, file_type := some doc_type.value }

/-! ## embedding.py -/

/-- Labeled errors raised by `EmbeddingService` (`RuntimeError` with the
stage-specific message). -/
inductive EmbErr where
  | creationFailed
  | storageFailed
  | searchFailed
deriving DecidableEq, Repr

/-- A record persisted in the chromadb collection: (id, embedding, document
text, metadata), spec section 3 StoredRecord. -/
structure StoredRecord where
  id : String
  embedding : List ℚ
  document : String
  metadata : Metadata
deriving DecidableEq, Repr

/-- One entry of a `search_embeddings` result list (embedding.py
lines 115-119). -/
structure SearchResult where
  text : String
  distance : ℚ
  metadata : Metadata
deriving DecidableEq, Repr

/-- Modelled from the spec: section 4.4 Embedding Generator — the
sentence-transformer `model.encode`, a dependency, not repository source.
It maps each input text to its vector under the loaded checkpoint `enc`,
order-preserving; `ok = false` models the underlying model invocation
raising, in which case no results are produced. -/
def sentenceEncode (enc : String → List ℚ) (ok : Bool) (texts : List String) :
    Except String (List (List ℚ)) :=
  if ok then .ok (texts.map enc) else .error "model invocation failed"

/-- `EmbeddingService.create_embeddings` (embedding.py lines 41-58): encode
the batch; any failure is re-raised as `RuntimeError("Embedding creation
failed")`. -/
def create_embeddings (enc : String → List ℚ) (ok : Bool) (texts : List String) :
    Except EmbErr (List (List ℚ)) :=
  match sentenceEncode enc ok texts with
  | .ok vs => .ok vs
  | .error _ => .error .creationFailed

/-- Python `x or d` for an optional list argument: `None` and the empty list
are both falsy. -/
def pyOrList {α : Type} (x : Option (List α)) (d : List α) : List α :=
  match x with
  | none => d
  | some l => if l.isEmpty then d else l

/-- Python truthiness of an optional string: `None` and `""` are falsy. -/
def pyTruthyStr (x : Option String) : Bool :=
  match x with
  | some u => u != ""
  | none => false

/-- The id list of `store_embeddings` (embedding.py line 82):
ids are derived from `unique_id` when it is truthy, else plain chunk ids;
Python truthiness makes both `None` and the empty string take the second
branch. -/
def makeIds (unique_id : Option String) (n : Nat) : List String :=
  if pyTruthyStr unique_id then
    (List.range n).map (fun i => unique_id.getD "" ++ "_chunk_" ++ Nat.repr i)
  else
    (List.range n).map (fun i => "chunk_" ++ Nat.repr i)

/-- Zip ids, embeddings, documents and metadatas into the records handed to
`collection.add` (embedding.py lines 84-89). -/
def makeRecords : List String → List (List ℚ) → List String → List Metadata →
    List StoredRecord
  | i :: is, e :: es, t :: ts, m :: ms =>
    { id := i, embedding := e, document := t, metadata := m } :: makeRecords is es ts ms
  | _, _, _, _ => []

/-- Modelled from the spec: section 4.5 Vector Store upsert of one record —
"writing with a duplicate id overwrites the prior record (replace
semantics)"; the chromadb backend is a dependency, not repository source. -/
def upsertOne (store : List StoredRecord) (r : StoredRecord) : List StoredRecord :=
  if store.any (fun x => x.id == r.id) then
    store.map (fun x => if x.id == r.id then r else x)
  else
    store ++ [r]

/-- Modelled from the spec: section 4.5 — `collection.add` writes every
record, duplicate ids overwriting the prior record. -/
def collectionAdd (store : List StoredRecord) (rs : List StoredRecord) :
    List StoredRecord :=
  rs.foldl upsertOne store

/-- `EmbeddingService.store_embeddings` (embedding.py lines 60-93):
`embeddings or create_embeddings(texts)`, `metadatas or [{} ...]`, derived
ids, then `collection.add`; every failure is re-raised as
`RuntimeError("Embedding storage failed")`. -/
def store_embeddings (enc : String → List ℚ) (ok : Bool)
    (store : List StoredRecord) (texts : List String)
    (embeddings : Option (List (List ℚ))) (metadatas : Option (List Metadata))
    (unique_id : Option String) : Except EmbErr (List StoredRecord) :=
  let embRes : Except EmbErr (List (List ℚ)) :=
    match embeddings with
    | some e => if e.isEmpty then create_embeddings enc ok texts else .ok e
    | none => create_embeddings enc ok texts
  match embRes with
  | .error _ => .error .storageFailed
  | .ok embs =>
    let metas := pyOrList metadatas (texts.map (fun _ => ([] : Metadata)))
    let ids := makeIds unique_id texts.length
    if embs.length = texts.length ∧ metas.length = texts.length then
      .ok (collectionAdd store (makeRecords ids embs texts metas))
    else
      .error .storageFailed

/-- Modelled from the spec: section 4.5 Vector Store query — results sorted by
ascending distance under the store's metric, ties broken stably by insertion
order, at most `topK` of them, failing when `topK ≤ 0`; the chromadb backend
is a dependency, not repository source.  `dist` abstracts the cosine distance
between a query vector and a stored embedding. -/
def collectionQuery (dist : List ℚ → List ℚ → ℚ) (store : List StoredRecord)
    (qv : List ℚ) (topK : Nat) : Except EmbErr (List StoredRecord) :=
  if topK = 0 then .error .searchFailed
  else
    .ok ((store.insertionSort
      (fun a b => dist qv a.embedding ≤ dist qv b.embedding)).take topK)

/-- `EmbeddingService.search_embeddings` (embedding.py lines 95-122): embed
the query, run the collection query, zip documents, distances and metadatas
into result dicts; failures re-raised as `RuntimeError("Embedding search
failed")`. -/
def search_embeddings (enc : String → List ℚ) (ok : Bool)
    (dist : List ℚ → List ℚ → ℚ) (store : List StoredRecord)
    (query : String) (topK : Nat) : Except EmbErr (List SearchResult) :=
  match create_embeddings enc ok [query] with
  | .error _ => .error .searchFailed
  | .ok qe =>
    let qv := qe.headD []
    match collectionQuery dist store qv topK with
    | .error _ => .error .searchFailed
    | .ok recs =>
      .ok (recs.map (fun r =>
        { text := r.document, distance := dist qv r.embedding,
          metadata := r.metadata }))

/-! ## model.py -/

/-- The `qa_prompt` template of `LangChainQAService` (model.py lines 30-41)
bound to a context block and a question. -/
def qa_prompt (context question : String) : String :=
  "\n        You are a helpful AI assistant for document question-answering.\n        \n        Context:\n        "
    ++ context
    ++ "\n        \n        Question: "
    ++ question
    ++ "\n        \n        Provide a comprehensive and precise answer based on the given context.\n        If the context is insufficient, state that clearly.\n        \n        Helpful Answer:"

/-- `LangChainQAService.generate_answer` (model.py lines 45-78): join the
context texts with double newlines, invoke the chain once; on any exception
return `f"Error generating answer: {str(e)}"` instead of raising.  The hosted
LLM call is abstracted as `llm`, mapping the composed prompt to either a
generated text or the exception message. -/
def generate_answer (llm : String → Except String String) (query : String)
    (context : Option (List SearchResult)) : String :=
  let context_text := String.intercalate "\n\n" ((context.getD []).map (fun c => c.text))
  match llm (qa_prompt context_text query) with
  | .ok response => response
  | .error e => "Error generating answer: " ++ e

/-! ## main.py -/

/-- The per-chunk metadata dicts built by `process_document_async`
(main.py lines 60-64). -/
def chunk_metadatas (filename file_type : String) (n : Nat) : List Metadata :=
  (List.range n).map (fun i =>
    [("filename", MetaVal.str filename), ("file_type", MetaVal.str file_type),
     ("chunk_index", MetaVal.nat i)])

/-- Errors surfaced by the ingestion pipeline wrapper. -/
inductive PipelineErr where
  | processing (e : ProcErr)
  | noChunks
  | storage (e : EmbErr)
deriving DecidableEq, Repr

/-- `process_document_async` (main.py lines 40-76): process the document,
reject empty chunk lists, derive `unique_id = f"{filename}_{file_hash}"`
(the hash of the uploaded bytes is abstracted as `file_hash`), build the
per-chunk metadata and store the embeddings. -/
def process_document_async (enc : String → List ℚ) (ok : Bool)
    (store : List StoredRecord) (file : FileModel) (file_hash : String) :
    Except PipelineErr (List StoredRecord) :=
  match process_document file with
  | .error e => .error (.processing e)
  | .ok processed =>
    let chunks := processed.chunks
    if chunks.isEmpty then .error .noChunks
    else
      let unique_id := file.name ++ "_" ++ file_hash
      let metadatas := chunk_metadatas file.name (processed.file_type.getD "") chunks.length
      match store_embeddings enc ok store chunks none (some metadatas) (some unique_id) with
      | .error e => .error (.storage e)
      | .ok s => .ok s

/-! ## Store lemmas -/

theorem makeIds_length (unique_id : Option String) (n : Nat) :
    (makeIds unique_id n).length = n := by
  unfold makeIds
  split <;> simp

theorem chunk_metadatas_length (filename file_type : String) (n : Nat) :
    (chunk_metadatas filename file_type n).length = n := by
  simp [chunk_metadatas]

theorem makeRecords_map_id (is : List String) : ∀ (es : List (List ℚ))
    (ts : List String) (ms : List Metadata), is.length = es.length →
    is.length = ts.length → is.length = ms.length →
    (makeRecords is es ts ms).map StoredRecord.id = is := by
  induction is with
  | nil =>
    intro es ts ms h1 h2 h3
    cases es with
    | cons e es => simp at h1
    | nil =>
      cases ts with
      | cons t ts => simp at h2
      | nil =>
        cases ms with
        | cons m ms => simp at h3
        | nil => rfl
  | cons i is ih =>
    intro es ts ms h1 h2 h3
    cases es with
    | nil => simp at h1
    | cons e es =>
      cases ts with
      | nil => simp at h2
      | cons t ts =>
        cases ms with
        | nil => simp at h3
        | cons m ms =>
          simp only [makeRecords, List.map_cons, List.cons.injEq, true_and]
          exact ih es ts ms (by simpa using h1) (by simpa using h2) (by simpa using h3)

theorem makeRecords_map_metadata (is : List String) : ∀ (es : List (List ℚ))
    (ts : List String) (ms : List Metadata), is.length = es.length →
    is.length = ts.length → is.length = ms.length →
    (makeRecords is es ts ms).map StoredRecord.metadata = ms := by
  induction is with
  | nil =>
    intro es ts ms h1 h2 h3
    cases es with
    | cons e es => simp at h1
    | nil =>
      cases ts with
      | cons t ts => simp at h2
      | nil =>
        cases ms with
        | cons m ms => simp at h3
        | nil => rfl
  | cons i is ih =>
    intro es ts ms h1 h2 h3
    cases es with
    | nil => simp at h1
    | cons e es =>
      cases ts with
      | nil => simp at h2
      | cons t ts =>
        cases ms with
        | nil => simp at h3
        | cons m ms =>
          simp only [makeRecords, List.map_cons, List.cons.injEq, true_and]
          exact ih es ts ms (by simpa using h1) (by simpa using h2) (by simpa using h3)

theorem upsertOne_map_id_of_mem {store : List StoredRecord} {r : StoredRecord}
    (h : r.id ∈ store.map StoredRecord.id) :
    (upsertOne store r).map StoredRecord.id = store.map StoredRecord.id := by
  obtain ⟨x, hx, hxid⟩ := List.mem_map.mp h
  have hany : store.any (fun y => y.id == r.id) = true :=
    List.any_eq_true.mpr ⟨x, hx, beq_iff_eq.mpr hxid⟩
  simp only [upsertOne, hany, if_true]
  rw [List.map_map]
  apply List.map_congr_left
  intro a ha
  by_cases hid : a.id = r.id
  · simp [Function.comp, hid]
  · simp [Function.comp, hid]

theorem collectionAdd_map_id_of_sub {store : List StoredRecord}
    {rs : List StoredRecord}
    (h : ∀ r ∈ rs, r.id ∈ store.map StoredRecord.id) :
    (collectionAdd store rs).map StoredRecord.id = store.map StoredRecord.id := by
  induction rs generalizing store with
  | nil => rfl
  | cons r rest ih =>
    have h1 := upsertOne_map_id_of_mem (h r (List.mem_cons_self r rest))
    have h2 : ∀ q ∈ rest, q.id ∈ (upsertOne store r).map StoredRecord.id := by
      intro q hq
      rw [h1]
      exact h q (List.mem_cons_of_mem r hq)
    calc (collectionAdd store (r :: rest)).map StoredRecord.id
        = (collectionAdd (upsertOne store r) rest).map StoredRecord.id := rfl
      _ = (upsertOne store r).map StoredRecord.id := ih h2
      _ = store.map StoredRecord.id := h1

theorem store_embeddings_ok_none (enc : String → List ℚ) (store : List StoredRecord)
    (texts : List String) (unique_id : Option String) :
    store_embeddings enc true store texts none none unique_id
      = .ok (collectionAdd store (makeRecords (makeIds unique_id texts.length)
          (texts.map enc) texts (texts.map fun _ => ([] : Metadata)))) := by
  simp [store_embeddings, create_embeddings, sentenceEncode, pyOrList]

/-! ## Extractor lemmas -/

theorem process_pdf_invariant {f : FileModel} {r : ExtractionResult}
    (h : process_pdf f = .ok r) : r.total_chunks = r.chunks.length := by
  cases hp : f.pdfPages with
  | none => simp [process_pdf, hp] at h
  | some pages =>
    simp only [process_pdf, hp, Except.ok.injEq] at h
    subst h
    rfl

theorem process_image_invariant {f : FileModel} {r : ExtractionResult}
    (h : process_image f = .ok r) : r.total_chunks = r.chunks.length := by
  cases hp : f.imageData with
  | none => simp [process_image, hp] at h
  | some v =>
    obtain ⟨ocr, fmt, mode⟩ := v
    simp only [process_image, hp, Except.ok.injEq] at h
    subst h
    rfl

theorem process_text_invariant {f : FileModel} {r : ExtractionResult}
    (h : process_text f = .ok r) : r.total_chunks = r.chunks.length := by
  cases hp : f.utf8Text with
  | none => simp [process_text, hp] at h
  | some text =>
    simp only [process_text, hp, Except.ok.injEq] at h
    subst h
    rfl

theorem process_document_invariant {f : FileModel} {r : ExtractionResult}
    (h : process_document f = .ok r) : r.total_chunks = r.chunks.length := by
  unfold process_document at h
  cases hd : detect_document_type f with
  | error e => rw [hd] at h; cases h
  | ok dt =>
    rw [hd] at h
    cases dt with
    | pdf =>
      simp only [processorFor] at h
      cases hr : process_pdf f with
      | error e => rw [hr] at h; cases h
      | ok r0 =>
        rw [hr] at h
        simp only [Except.ok.injEq] at h
        subst h
        show r0.total_chunks = r0.chunks.length
        exact process_pdf_invariant hr
    | image =>
      simp only [processorFor] at h
      cases hr : process_image f with
      | error e => rw [hr] at h; cases h
      | ok r0 =>
        rw [hr] at h
        simp only [Except.ok.injEq] at h
        subst h
        show r0.total_chunks = r0.chunks.length
        exact process_image_invariant hr
    | text =>
      simp only [processorFor] at h
      cases hr : process_text f with
      | error e => rw [hr] at h; cases h
      | ok r0 =>
        rw [hr] at h
        simp only [Except.ok.injEq] at h
        subst h
        show r0.total_chunks = r0.chunks.length
        exact process_text_invariant hr
    | excel => simp only [processorFor] at h; cases h

/-! ## Search lemmas -/

theorem search_embeddings_ok (enc : String → List ℚ) (dist : List ℚ → List ℚ → ℚ)
    (store : List StoredRecord) (query : String) (topK : Nat) (h : topK ≠ 0) :
    search_embeddings enc true dist store query topK
      = .ok (((store.insertionSort
          (fun a b => dist (enc query) a.embedding ≤ dist (enc query) b.embedding)).take
            topK).map (fun rcd =>
              { text := rcd.document,
                distance := dist (enc query) rcd.embedding,
                metadata := rcd.metadata })) := by
  simp [search_embeddings, create_embeddings, sentenceEncode, collectionQuery, h]

/-! ## Claims -/

instance {e a : Type} [DecidableEq e] [DecidableEq a] : DecidableEq (Except e a) :=
  fun x y =>
    match x, y with
    | .ok v, .ok w =>
      if h : v = w then isTrue (by rw [h]) else isFalse (by intro hc; cases hc; exact h rfl)
    | .error v, .error w =>
      if h : v = w then isTrue (by rw [h]) else isFalse (by intro hc; cases hc; exact h rfl)
    | .ok _, .error _ => isFalse (by intro hc; cases hc)
    | .error _, .ok _ => isFalse (by intro hc; cases hc)

/-- A one-record store used as a concrete instance: it already holds the id
`"doc_chunk_0"` that re-ingesting one chunk under identity `"doc"` produces. -/
def sampleStore : List StoredRecord :=
  [{ id := "doc_chunk_0", embedding := [1], document := "alpha", metadata := [] }]

/-- C1: for every store and every ingestion whose derived ids are all already
present in the store, `store_embeddings` succeeds and — under the replace
semantics of the vector store — neither grows the store nor duplicates any
record: the store keeps exactly one record per derived id (re-ingesting the
same texts under the same identity derives the same ids, `makeIds` being a
function of the identity and the chunk count alone). -/
theorem store_embeddings_reingest_replaces (enc : String → List ℚ)
    (store : List StoredRecord) (texts : List String) (unique_id : Option String)
    (hnodup : (store.map StoredRecord.id).Nodup)
    (hpresent : ∀ x ∈ makeIds unique_id texts.length, x ∈ store.map StoredRecord.id) :
    ∃ store2, store_embeddings enc true store texts none none unique_id = .ok store2
      ∧ store2.length = store.length
      ∧ (store2.map StoredRecord.id).Nodup
      ∧ ∀ x ∈ makeIds unique_id texts.length,
          (store2.map StoredRecord.id).count x = 1 := by
  have hids : (makeRecords (makeIds unique_id texts.length) (texts.map enc) texts
      (texts.map fun _ => ([] : Metadata))).map StoredRecord.id
        = makeIds unique_id texts.length :=
    makeRecords_map_id _ _ _ _ (by simp [makeIds_length]) (by simp [makeIds_length])
      (by simp [makeIds_length])
  have hmem : ∀ r ∈ makeRecords (makeIds unique_id texts.length) (texts.map enc) texts
      (texts.map fun _ => ([] : Metadata)), r.id ∈ store.map StoredRecord.id := by
    intro r hr
    apply hpresent
    rw [← hids]
    exact List.mem_map_of_mem _ hr
  have hmap := collectionAdd_map_id_of_sub hmem
  refine ⟨_, store_embeddings_ok_none enc store texts unique_id, ?_, ?_, ?_⟩
  · have hlen := congrArg List.length hmap
    simpa using hlen
  · rw [hmap]; exact hnodup
  · intro x hx
    rw [hmap]
    exact List.count_eq_one_of_mem hnodup (hpresent x hx)

/-- C1 witness: re-ingesting the single chunk `"alpha"` under identity
`"doc"` into `sampleStore`, which already holds `"doc_chunk_0"`. -/
theorem store_embeddings_reingest_replaces_witness :
    ((sampleStore.map StoredRecord.id).Nodup
      ∧ ∀ x ∈ makeIds (some "doc") (["alpha"] : List String).length,
          x ∈ sampleStore.map StoredRecord.id)
    ∧ ∃ store2, store_embeddings (fun _ => [1]) true sampleStore ["alpha"]
          none none (some "doc") = .ok store2
        ∧ store2.length = sampleStore.length
        ∧ (store2.map StoredRecord.id).Nodup
        ∧ ∀ x ∈ makeIds (some "doc") (["alpha"] : List String).length,
            (store2.map StoredRecord.id).count x = 1 :=
  ⟨⟨by decide, by decide⟩,
    store_embeddings_reingest_replaces (fun _ => [1]) sampleStore ["alpha"]
      (some "doc") (by decide) (by decide)⟩

/-- A file whose content sniffs as an Excel spreadsheet; its raw binary bytes
do not decode as UTF-8. -/
def xlsxFile : FileModel :=
  { name := "report.xlsx",
    mime := some "application/vnd.openxmlformats-officedocument.spreadsheetml.sheet",
    utf8Text := none }

/-- C2 counterexample: the dispatch table of `process_document` has no entry
for the Excel kind at all — an Excel-typed document is not routed to the Text
extractor; `process_document` raises the unsupported-type error instead, an
outcome distinct from what the Text extractor would return. -/
theorem excel_not_routed_to_text :
    detect_document_type xlsxFile = .ok .excel
    ∧ processorFor DocumentType.excel = none
    ∧ process_document xlsxFile = .error .unsupportedType
    ∧ process_document xlsxFile ≠ process_text xlsxFile := by
  refine ⟨by decide, rfl, by decide, by decide⟩

/-- C2 (amended): when the detected kind is Excel, `process_document` raises
the unsupported-document-type error (`ValueError`): no extractor, the Text
extractor included, is attempted. -/
theorem process_document_excel_unsupported (f : FileModel)
    (h : detect_document_type f = .ok .excel) :
    process_document f = .error .unsupportedType := by
  unfold process_document
  rw [h]
  rfl

/-- C2 witness: the Excel-typed `xlsxFile`. -/
theorem process_document_excel_unsupported_witness :
    detect_document_type xlsxFile = .ok .excel
    ∧ process_document xlsxFile = .error .unsupportedType :=
  ⟨by decide, process_document_excel_unsupported xlsxFile (by decide)⟩

/-- C3 counterexample: the empty text has length `0 ≤ 1000`, yet the chunker
returns the empty sequence, not the one-element sequence holding the empty
text. -/
theorem split_text_empty_not_singleton :
    split_text "" = [] ∧ split_text "" ≠ [""] :=
  ⟨rfl, by decide⟩

/-- C3 (amended): for every non-empty text of at most `chunk_size = 1000`
characters the chunker returns the one-element sequence holding the whole
text; the empty text yields the empty sequence instead. -/
theorem split_text_short_singleton (T : String) (h1 : T ≠ "")
    (h2 : T.length ≤ 1000) : split_text T = [T] :=
  split_text_short T h1 h2

/-- C3 witness: the five-character text `"hello"`. -/
theorem split_text_short_singleton_witness :
    (("hello" : String) ≠ "" ∧ ("hello" : String).length ≤ 1000)
    ∧ split_text "hello" = ["hello"] :=
  ⟨⟨by decide, by decide⟩, split_text_short_singleton "hello" (by decide) (by decide)⟩

/-- C4: for every store, query and `top_k > 0`, `search_embeddings` succeeds
and returns `min top_k (store size)` results — never more than `top_k`, the
empty sequence (not an error) on the empty store — sorted by non-decreasing
distance. -/
theorem search_embeddings_spec (enc : String → List ℚ)
    (dist : List ℚ → List ℚ → ℚ) (store : List StoredRecord) (query : String)
    (topK : Nat) (hk : 0 < topK) :
    ∃ res, search_embeddings enc true dist store query topK = .ok res
      ∧ res.length = min topK store.length
      ∧ res.length ≤ topK
      ∧ List.Sorted (fun a b => a ≤ b) (res.map SearchResult.distance)
      ∧ (store = [] → res = []) := by
  have hk0 : topK ≠ 0 := Nat.pos_iff_ne_zero.mp hk
  refine ⟨_, search_embeddings_ok enc dist store query topK hk0, ?_, ?_, ?_, ?_⟩
  · simp
  · simp
  · haveI : IsTotal StoredRecord
        (fun a b => dist (enc query) a.embedding ≤ dist (enc query) b.embedding) :=
      ⟨fun a b => le_total _ _⟩
    haveI : IsTrans StoredRecord
        (fun a b => dist (enc query) a.embedding ≤ dist (enc query) b.embedding) :=
      ⟨fun a b c hab hbc => le_trans hab hbc⟩
    have hs := List.sorted_insertionSort
      (fun a b => dist (enc query) a.embedding ≤ dist (enc query) b.embedding) store
    have hs2 := List.Pairwise.sublist (List.take_sublist topK _) hs
    rw [List.map_map]
    exact List.pairwise_map.mpr hs2
  · rintro rfl
    simp

/-- C4 witness: the one-record `sampleStore` queried with `top_k = 2`. -/
theorem search_embeddings_spec_witness :
    0 < 2 ∧ ∃ res, search_embeddings (fun _ => [0]) true (fun _ _ => 0)
        sampleStore "q" 2 = .ok res
      ∧ res.length = min 2 sampleStore.length
      ∧ res.length ≤ 2
      ∧ List.Sorted (fun a b => a ≤ b) (res.map SearchResult.distance)
      ∧ (sampleStore = [] → res = []) :=
  ⟨by decide, search_embeddings_spec (fun _ => [0]) (fun _ _ => 0) sampleStore "q" 2
    (by decide)⟩

/-- C5: whenever the language-model invocation fails (returns the exception
`e` on the composed prompt), `generate_answer` does not propagate the failure:
it returns the error-describing string as the answer. -/
theorem generate_answer_degrades (llm : String → Except String String)
    (query : String) (context : Option (List SearchResult)) (e : String)
    (h : llm (qa_prompt
        (String.intercalate "\n\n" ((context.getD []).map (fun c => c.text)))
        query) = .error e) :
    generate_answer llm query context = "Error generating answer: " ++ e := by
  simp only [generate_answer]
  rw [h]

/-- C5 witness: an LLM stub that always fails with `"invalid credential"`. -/
theorem generate_answer_degrades_witness :
    ((fun _ : String => (Except.error "invalid credential" : Except String String))
        (qa_prompt (String.intercalate "\n\n"
          ((((none : Option (List SearchResult))).getD []).map (fun c => c.text)))
          "What is this?") = .error "invalid credential")
    ∧ generate_answer (fun _ => .error "invalid credential") "What is this?" none
        = "Error generating answer: invalid credential" :=
  ⟨rfl, generate_answer_degrades (fun _ => .error "invalid credential")
    "What is this?" none "invalid credential" rfl⟩

/-- A plain-text file used as a concrete instance. -/
def sampleTextFile : FileModel :=
  { name := "note.txt", mime := some "text/plain", utf8Text := some "hello" }

/-- The extraction result of `sampleTextFile`. -/
def sampleResult : ExtractionResult :=
  { text := "hello", chunks := ["hello"], total_chunks := 1 }

/-- C6: every `ExtractionResult` any extractor (PDF, Image or Text, directly
or through `process_document`) returns satisfies
`total_chunks == len(chunks)`. -/
theorem extraction_result_invariant (f : FileModel) (r : ExtractionResult)
    (h : process_pdf f = .ok r ∨ process_image f = .ok r ∨ process_text f = .ok r
      ∨ process_document f = .ok r) :
    r.total_chunks = r.chunks.length := by
  rcases h with h | h | h | h
  · exact process_pdf_invariant h
  · exact process_image_invariant h
  · exact process_text_invariant h
  · exact process_document_invariant h

/-- C6 witness: extracting the five-character text file. -/
theorem extraction_result_invariant_witness :
    (process_pdf sampleTextFile = .ok sampleResult
      ∨ process_image sampleTextFile = .ok sampleResult
      ∨ process_text sampleTextFile = .ok sampleResult
      ∨ process_document sampleTextFile = .ok sampleResult)
    ∧ sampleResult.total_chunks = sampleResult.chunks.length :=
  ⟨Or.inr (Or.inr (Or.inl (by decide))),
    extraction_result_invariant sampleTextFile sampleResult
      (Or.inr (Or.inr (Or.inl (by decide))))⟩

/-- C7 counterexample: a supplied-but-empty document identity is falsy in
Python, so the stored id is `"chunk_0"`, not the
`"{document_identity}_chunk_{0}"` = `"_chunk_0"` the claim prescribes for a
supplied identity. -/
theorem makeIds_empty_identity :
    makeIds (some "") 1 = ["chunk_0"]
    ∧ makeIds (some "") 1 ≠ ["" ++ "_chunk_" ++ Nat.repr 0] := by
  exact ⟨by decide, by decide⟩

/-- C7 (amended): for every ingestion of n chunks, the i-th record handed to
the store has id `"{document_identity}_chunk_{i}"` when a non-empty document
identity is supplied and `"chunk_{i}"` when it is omitted (or empty), and its
`chunk_index` metadata equals `i` — chunk order is preserved from extraction
through the stored records. -/
theorem stored_record_ids_and_order (uid filename ftype : String)
    (hu : uid ≠ "") (texts : List String) (es : List (List ℚ))
    (he : es.length = texts.length) (i : Nat) (hi : i < texts.length) :
    ((makeRecords (makeIds (some uid) texts.length) es texts
        (chunk_metadatas filename ftype texts.length)).map StoredRecord.id)[i]?
      = some (uid ++ "_chunk_" ++ Nat.repr i)
    ∧ (((makeRecords (makeIds (some uid) texts.length) es texts
        (chunk_metadatas filename ftype texts.length)).map
          StoredRecord.metadata)[i]?.bind
            (fun m => List.lookup "chunk_index" m)) = some (MetaVal.nat i)
    ∧ (makeIds none texts.length)[i]? = some ("chunk_" ++ Nat.repr i) := by
  have htruthy : pyTruthyStr (some uid) = true := by
    simp [pyTruthyStr, hu]
  have hids : makeIds (some uid) texts.length
      = (List.range texts.length).map
          (fun j => (some uid : Option String).getD "" ++ "_chunk_" ++ Nat.repr j) := by
    simp [makeIds, htruthy]
  have hmapid : (makeRecords (makeIds (some uid) texts.length) es texts
      (chunk_metadatas filename ftype texts.length)).map StoredRecord.id
        = makeIds (some uid) texts.length :=
    makeRecords_map_id _ _ _ _ (by simp [makeIds_length, he])
      (by simp [makeIds_length]) (by simp [makeIds_length, chunk_metadatas_length])
  have hmapmeta : (makeRecords (makeIds (some uid) texts.length) es texts
      (chunk_metadatas filename ftype texts.length)).map StoredRecord.metadata
        = chunk_metadatas filename ftype texts.length :=
    makeRecords_map_metadata _ _ _ _ (by simp [makeIds_length, he])
      (by simp [makeIds_length]) (by simp [makeIds_length, chunk_metadatas_length])
  refine ⟨?_, ?_, ?_⟩
  · rw [hmapid, hids]
    simp [List.getElem?_map, List.getElem?_range hi]
  · rw [hmapmeta]
    simp only [chunk_metadatas, List.getElem?_map, List.getElem?_range hi,
      Option.map_some, Option.bind_some]
    rfl
  · have : pyTruthyStr none = false := rfl
    simp [makeIds, this, List.getElem?_map, List.getElem?_range hi]

/-- C7 witness: one chunk under identity `"doc"`, filename `"a.txt"`. -/
theorem stored_record_ids_and_order_witness :
    (("doc" : String) ≠ ""
      ∧ ([[(1 : ℚ)]] : List (List ℚ)).length = (["alpha"] : List String).length
      ∧ 0 < (["alpha"] : List String).length)
    ∧ ((makeRecords (makeIds (some "doc") (["alpha"] : List String).length)
          [[(1 : ℚ)]] ["alpha"]
          (chunk_metadatas "a.txt" "text" (["alpha"] : List String).length)).map
            StoredRecord.id)[0]? = some ("doc" ++ "_chunk_" ++ Nat.repr 0)
    ∧ (((makeRecords (makeIds (some "doc") (["alpha"] : List String).length)
          [[(1 : ℚ)]] ["alpha"]
          (chunk_metadatas "a.txt" "text" (["alpha"] : List String).length)).map
            StoredRecord.metadata)[0]?.bind
              (fun m => List.lookup "chunk_index" m)) = some (MetaVal.nat 0)
    ∧ (makeIds none (["alpha"] : List String).length)[0]?
        = some ("chunk_" ++ Nat.repr 0) :=
  ⟨⟨by decide, by decide, by decide⟩,
    stored_record_ids_and_order "doc" "a.txt" "text" (by decide) ["alpha"]
      [[(1 : ℚ)]] (by decide) 0 (by decide)⟩

/-- C8: `create_embeddings` returns exactly one fixed-dimension vector per
input text, in input order, when the model invocation succeeds; when the
invocation fails it raises the embedding-stage error with no partial
results. -/
theorem create_embeddings_contract (enc : String → List ℚ) (texts : List String)
    (d : Nat) (hd : ∀ s, (enc s).length = d) :
    create_embeddings enc true texts = .ok (texts.map enc)
    ∧ (texts.map enc).length = texts.length
    ∧ (∀ i (hi : i < texts.length),
        (texts.map enc).get ⟨i, by simpa using hi⟩ = enc (texts.get ⟨i, hi⟩))
    ∧ (∀ v ∈ texts.map enc, v.length = d)
    ∧ create_embeddings enc false texts = .error .creationFailed := by
  refine ⟨rfl, by simp, ?_, ?_, rfl⟩
  · intro i hi
    simp
  · intro v hv
    obtain ⟨s, _, rfl⟩ := List.mem_map.mp hv
    exact hd s

/-- C8 witness: a one-dimensional encoder on two texts. -/
theorem create_embeddings_contract_witness :
    (∀ s : String, ((fun _ : String => [(0 : ℚ)]) s).length = 1)
    ∧ (create_embeddings (fun _ : String => [(0 : ℚ)]) true ["a", "b"]
        = .ok ((["a", "b"] : List String).map (fun _ => [(0 : ℚ)]))
      ∧ ((["a", "b"] : List String).map (fun _ : String => [(0 : ℚ)])).length
          = (["a", "b"] : List String).length
      ∧ (∀ i (hi : i < (["a", "b"] : List String).length),
          ((["a", "b"] : List String).map (fun _ : String => [(0 : ℚ)])).get
              ⟨i, by simpa using hi⟩
            = (fun _ : String => [(0 : ℚ)]) ((["a", "b"] : List String).get ⟨i, hi⟩))
      ∧ (∀ v ∈ (["a", "b"] : List String).map (fun _ : String => [(0 : ℚ)]),
          v.length = 1)
      ∧ create_embeddings (fun _ : String => [(0 : ℚ)]) false ["a", "b"]
          = .error .creationFailed) :=
  ⟨fun _ => rfl,
    create_embeddings_contract (fun _ => [(0 : ℚ)]) ["a", "b"] 1 (fun _ => rfl)⟩

/-- C9: an image whose OCR yields no text extracts successfully to the empty
text with zero chunks — not an error. -/
theorem process_image_blank_ok (f : FileModel) (fmt mode : String)
    (h : f.imageData = some ("", fmt, mode)) :
    process_image f
      = .ok { text := "", chunks := [], imageFormat := some fmt,
              mode := some mode, total_chunks := 0 } := by
  simp only [process_image, h]
  rfl

/-- A blank PNG: the OCR engine returns the empty string. -/
def blankImageFile : FileModel :=
  { name := "blank.png", mime := some "image/png",
    imageData := some ("", "PNG", "RGB") }

/-- C9 witness: the blank PNG. -/
theorem process_image_blank_ok_witness :
    blankImageFile.imageData = some ("", "PNG", "RGB")
    ∧ process_image blankImageFile
        = .ok { text := "", chunks := [],
                imageFormat := some "PNG", mode := some "RGB", total_chunks := 0 } :=
  ⟨rfl, process_image_blank_ok blankImageFile "PNG" "RGB" rfl⟩

/-- C10: passing an explicitly empty list for the `embeddings` parameter (or
for the `metadatas` parameter) of `store_embeddings` behaves exactly as
omitting it, because Python `or` treats the empty list as absent: embeddings
are recomputed from the texts and metadatas default to one empty mapping per
text. -/
theorem store_embeddings_empty_lists_default (enc : String → List ℚ) (ok : Bool)
    (store : List StoredRecord) (texts : List String)
    (metadatas : Option (List Metadata)) (embeddings : Option (List (List ℚ)))
    (unique_id : Option String) (_hne : texts ≠ []) :
    store_embeddings enc ok store texts (some []) metadatas unique_id
      = store_embeddings enc ok store texts none metadatas unique_id
    ∧ store_embeddings enc ok store texts embeddings (some []) unique_id
      = store_embeddings enc ok store texts embeddings none unique_id :=
  ⟨rfl, rfl⟩

/-- C10 witness: one non-empty text list. -/
theorem store_embeddings_empty_lists_default_witness :
    ((["alpha"] : List String) ≠ [])
    ∧ (store_embeddings (fun _ => [(1 : ℚ)]) true [] ["alpha"] (some [])
          none (some "doc")
        = store_embeddings (fun _ => [(1 : ℚ)]) true [] ["alpha"] none
            none (some "doc")
      ∧ store_embeddings (fun _ => [(1 : ℚ)]) true [] ["alpha"] none
            (some []) (some "doc")
        = store_embeddings (fun _ => [(1 : ℚ)]) true [] ["alpha"] none
            none (some "doc")) :=
  ⟨by decide,
    store_embeddings_empty_lists_default (fun _ => [(1 : ℚ)]) true [] ["alpha"]
      none none (some "doc") (by decide)⟩
